import Mathlib

/- Shallow embedding of the recent-documents and bookmarks metadata store of
the document-reader repository. The repository holds two implementations of
the store, both embedded here: the TypeScript class DocumentService in the
services file, and the JavaScript class DocumentServiceClass embedded in the
application file. Both persist the same two AsyncStorage keys. -/

/-- DocumentInfo mirrors the persisted document record shape. The TypeScript
interface fixes uri, name, type, size and lastModified and allows extra keys;
the JavaScript service adds addedAt on bookmark entries and accessedAt on
recent entries, so those appear here as optional fields, with none standing
for a key that is not present on the object. -/
structure DocumentInfo where
  uri : String
  name : String
  type : String
  size : Option String := none
  lastModified : Option String := none
  addedAt : Option Nat := none
  accessedAt : Option Nat := none
deriving Repr, DecidableEq

/-- StorageCell models one AsyncStorage key: the key can be absent, hold a
string on which JSON.parse throws, or hold a valid JSON array of records. -/
inductive StorageCell where
  | absent : StorageCell
  | corrupt : StorageCell
  | arr : List DocumentInfo → StorageCell
deriving Repr, DecidableEq

/-- Store models the two AsyncStorage keys used by both services: the
bookmarks key and the recentDocuments key. -/
structure Store where
  bookmarks : StorageCell
  recent : StorageCell
deriving Repr, DecidableEq

/-- readCell models reading a key and parsing it the way both read paths do:
an absent key gives an empty array, a JSON.parse failure is caught and gives
an empty array, and a stored array is returned as is. -/
def readCell : StorageCell → List DocumentInfo
  | StorageCell.arr l => l
  | _ => []

/-- MAX_RECENT_DOCUMENTS is the capacity constant shared by both services. -/
def MAX_RECENT_DOCUMENTS : Nat := 20

/-- lowerStr models the JavaScript toLowerCase call, as a character list. -/
def lowerStr (s : String) : List Char := s.data.map Char.toLower

/-- seqIncludes models the JavaScript String.includes call: it is true when
sub occurs as a contiguous run inside hay. -/
def seqIncludes (hay sub : List Char) : Bool :=
  match hay with
  | [] => sub.isEmpty
  | c :: rest => sub.isPrefixOf (c :: rest) || seqIncludes rest sub

/-- matchesQuery is the filter body of the TypeScript searchDocuments: a case
insensitive substring match of the query against name and against type. -/
def matchesQuery (query : String) (doc : DocumentInfo) : Bool :=
  seqIncludes (lowerStr doc.name) (lowerStr query) ||
    seqIncludes (lowerStr doc.type) (lowerStr query)

namespace DocumentService

/-- getBookmarks of the TypeScript service: read the bookmarks key, returning
an empty list when the key is absent or fails to parse. -/
def getBookmarks (st : Store) : List DocumentInfo := readCell st.bookmarks

/-- getRecentDocuments of the TypeScript service: read the recentDocuments
key, returning an empty list when the key is absent or fails to parse. -/
def getRecentDocuments (st : Store) : List DocumentInfo := readCell st.recent

/-- addBookmark of the TypeScript service: when findIndex yields -1, meaning
no stored entry shares the uri, the record is unshifted onto the front and
the list persisted; otherwise nothing happens and nothing is written. -/
def addBookmark (st : Store) (documentInfo : DocumentInfo) : Store :=
  let bookmarks := getBookmarks st
  match bookmarks.findIdx? (fun doc => doc.uri == documentInfo.uri) with
  | none => { st with bookmarks := StorageCell.arr (documentInfo :: bookmarks) }
  | some _ => st

/-- removeBookmark of the TypeScript service: filter out every entry with the
given uri and persist the filtered list. -/
def removeBookmark (st : Store) (uri : String) : Store :=
  { st with
    bookmarks := StorageCell.arr ((getBookmarks st).filter (fun doc => doc.uri != uri)) }

/-- isDocumentBookmarked of the TypeScript service: a linear scan. -/
def isDocumentBookmarked (st : Store) (uri : String) : Bool :=
  (getBookmarks st).any (fun doc => doc.uri == uri)

/-- addToRecentDocuments of the TypeScript service: every stored entry with
the same uri is filtered out, the new record is unshifted onto the front
exactly as supplied by the caller, and slice keeps the first
MAX_RECENT_DOCUMENTS entries. -/
def addToRecentDocuments (st : Store) (documentInfo : DocumentInfo) : Store :=
  let recentDocs := getRecentDocuments st
  let filteredDocs := recentDocs.filter (fun doc => doc.uri != documentInfo.uri)
  let trimmedDocs := (documentInfo :: filteredDocs).take MAX_RECENT_DOCUMENTS
  { st with recent := StorageCell.arr trimmedDocs }

/-- clearRecentDocuments of the TypeScript service: persist an empty array. -/
def clearRecentDocuments (st : Store) : Store :=
  { st with recent := StorageCell.arr [] }

/-- firstIdxOfUri models the self.findIndex call inside searchDocuments. -/
def firstIdxOfUri (l : List DocumentInfo) (u : String) : Nat :=
  l.findIdx (fun doc => doc.uri == u)

/-- uniqueDocsAux walks the combined list together with its running index,
keeping an entry exactly when its index equals the first index carrying its
uri; this is the JavaScript filter over the triple of document, index and the
whole list used by searchDocuments. -/
def uniqueDocsAux (allDocs : List DocumentInfo) : Nat → List DocumentInfo → List DocumentInfo
  | _, [] => []
  | i, doc :: rest =>
    if firstIdxOfUri allDocs doc.uri == i then doc :: uniqueDocsAux allDocs (i + 1) rest
    else uniqueDocsAux allDocs (i + 1) rest

/-- searchDocuments of the TypeScript service: concatenate recent then
bookmarks, keep the first occurrence of each uri, then filter by the case
insensitive match of the query against name and type. -/
def searchDocuments (st : Store) (query : String) : List DocumentInfo :=
  let allDocs := getRecentDocuments st ++ getBookmarks st
  let uniqueDocs := uniqueDocsAux allDocs 0 allDocs
  uniqueDocs.filter (matchesQuery query)

/-- addBookmarkW is addBookmark with the outcome of the AsyncStorage setItem
call made explicit: when the write is reached and the set fails, the catch
block of the source rethrows, so the returned promise rejects, which is the
error case here; when no write is reached the call resolves with the store
untouched. -/
def addBookmarkW (setOk : Bool) (st : Store) (documentInfo : DocumentInfo) :
    Except Unit Store :=
  let bookmarks := getBookmarks st
  match bookmarks.findIdx? (fun doc => doc.uri == documentInfo.uri) with
  | none =>
    if setOk then Except.ok { st with bookmarks := StorageCell.arr (documentInfo :: bookmarks) }
    else Except.error ()
  | some _ => Except.ok st

/-- removeBookmarkW is removeBookmark with the setItem outcome explicit; the
source rethrows from its catch block when the set fails. -/
def removeBookmarkW (setOk : Bool) (st : Store) (uri : String) : Except Unit Store :=
  if setOk then Except.ok (removeBookmark st uri) else Except.error ()

/-- addToRecentDocumentsW is addToRecentDocuments with the setItem outcome
explicit; the source rethrows from its catch block when the set fails. -/
def addToRecentDocumentsW (setOk : Bool) (st : Store) (documentInfo : DocumentInfo) :
    Except Unit Store :=
  if setOk then Except.ok (addToRecentDocuments st documentInfo) else Except.error ()

/-- clearRecentDocumentsW is clearRecentDocuments with the setItem outcome
explicit; the source rethrows from its catch block when the set fails. -/
def clearRecentDocumentsW (setOk : Bool) (st : Store) : Except Unit Store :=
  if setOk then Except.ok (clearRecentDocuments st) else Except.error ()

end DocumentService

namespace DocumentServiceClass

/-- getBookmarks of the JavaScript service; its catch block also maps a parse
failure to an empty list, and JSON.parse of null followed by the or-default
maps an absent key to an empty list. -/
def getBookmarks (st : Store) : List DocumentInfo := readCell st.bookmarks

/-- getRecentDocuments of the JavaScript service, same read contract. -/
def getRecentDocuments (st : Store) : List DocumentInfo := readCell st.recent

/-- mkBookmarkEntry is the object literal pushed by the JavaScript
addBookmark: uri, name, type and a fresh addedAt timestamp; no size and no
lastModified key is present on it. -/
def mkBookmarkEntry (uri name type : String) (now : Nat) : DocumentInfo :=
  { uri := uri, name := name, type := type, addedAt := some now }

/-- addBookmark of the JavaScript service. A parse failure of the stored
value throws inside the single try block, and the catch returns false with
nothing written. An entry with the same uri returns true without writing.
Otherwise the new entry is pushed onto the end of the array and persisted;
setOk gives the outcome of that setItem call, with false meaning the catch
returns false and the storage keeps its old value. -/
def addBookmark (setOk : Bool) (st : Store) (uri name type : String) (now : Nat) :
    Bool × Store :=
  match st.bookmarks with
  | StorageCell.corrupt => (false, st)
  | cell =>
    let bookmarks := readCell cell
    match bookmarks.find? (fun item => item.uri == uri) with
    | some _ => (true, st)
    | none =>
      if setOk then
        (true, { st with
          bookmarks := StorageCell.arr (bookmarks ++ [mkBookmarkEntry uri name type now]) })
      else (false, st)

/-- removeBookmark of the JavaScript service: filter out the uri and persist;
a parse failure or a failed set makes the catch return false. -/
def removeBookmark (setOk : Bool) (st : Store) (uri : String) : Bool × Store :=
  match st.bookmarks with
  | StorageCell.corrupt => (false, st)
  | cell =>
    if setOk then
      (true, { st with
        bookmarks := StorageCell.arr ((readCell cell).filter (fun item => item.uri != uri)) })
    else (false, st)

/-- addToRecentDocuments of the JavaScript service: when findIndex locates an
entry with the same uri, splice removes that single entry; the record is then
unshifted onto the front with a fresh accessedAt stamp spread onto it, and
the array is sliced only when its length exceeds the capacity. A parse
failure or a failed set makes the catch return false with nothing written. -/
def addToRecentDocuments (setOk : Bool) (st : Store) (document : DocumentInfo) (now : Nat) :
    Bool × Store :=
  match st.recent with
  | StorageCell.corrupt => (false, st)
  | cell =>
    let recentDocuments := readCell cell
    let afterSplice := recentDocuments.eraseP (fun item => item.uri == document.uri)
    let withNew := { document with accessedAt := some now } :: afterSplice
    let limited :=
      if MAX_RECENT_DOCUMENTS < withNew.length then withNew.take MAX_RECENT_DOCUMENTS
      else withNew
    if setOk then (true, { st with recent := StorageCell.arr limited }) else (false, st)

/-- clearRecentDocuments of the JavaScript service: persist an empty array,
returning false from the catch when the set fails. -/
def clearRecentDocuments (setOk : Bool) (st : Store) : Bool × Store :=
  if setOk then (true, { st with recent := StorageCell.arr [] }) else (false, st)

end DocumentServiceClass

/-- dedupByUri keeps the first occurrence of each uri, in order. It is the
specification reading of the index-based filter inside searchDocuments and is
compared against it below. -/
def dedupByUri : List DocumentInfo → List DocumentInfo
  | [] => []
  | d :: ds => d :: dedupByUri (ds.filter (fun e => e.uri != d.uri))
termination_by l => l.length
decreasing_by
  simp only [List.length_cons]
  exact Nat.lt_succ_of_le (List.length_filter_le _ _)

/-- iterateAddRecent applies the TypeScript addToRecentDocuments n times in
sequence with the same record. -/
def iterateAddRecent (r : DocumentInfo) : Nat → Store → Store
  | 0, st => st
  | n + 1, st => DocumentService.addToRecentDocuments (iterateAddRecent r n st) r

/-- iterateAddRecentClass applies the JavaScript addToRecentDocuments n times
in sequence with the same record, call k reading its clock from times k. -/
def iterateAddRecentClass (r : DocumentInfo) (times : Nat → Nat) : Nat → Store → Store
  | 0, st => st
  | n + 1, st =>
    (DocumentServiceClass.addToRecentDocuments true (iterateAddRecentClass r times n st) r
      (times n)).2

/-- insertAll folds the TypeScript addToRecentDocuments over a record list. -/
def insertAll (rs : List DocumentInfo) (st : Store) : Store :=
  rs.foldl DocumentService.addToRecentDocuments st

/-- insertAllClass folds the JavaScript addToRecentDocuments over record and
timestamp pairs. -/
def insertAllClass (prs : List (DocumentInfo × Nat)) (st : Store) : Store :=
  prs.foldl (fun s pr => (DocumentServiceClass.addToRecentDocuments true s pr.1 pr.2).2) st

/-- stampAll maps each record and timestamp pair to the entry the JavaScript
service stores for it. -/
def stampAll (prs : List (DocumentInfo × Nat)) : List DocumentInfo :=
  prs.map (fun pr => { pr.1 with accessedAt := some pr.2 })

/-- docA is a sample record with uri u1. -/
def docA : DocumentInfo :=
  { uri := "u1", name := "Report.pdf", type := "pdf", size := some "1 KB",
    lastModified := some "2024-01-01" }

/-- docB is a sample record with uri u2. -/
def docB : DocumentInfo := { uri := "u2", name := "invoice.docx", type := "docx" }

/-- docU is a sample record with uri u, used to build duplicate lists. -/
def docU : DocumentInfo := { uri := "u", name := "dup", type := "txt" }

/-- emptyStore holds an empty array under both keys. -/
def emptyStore : Store := { bookmarks := StorageCell.arr [], recent := StorageCell.arr [] }

/-- dupStore holds a recent list with two entries sharing uri u. -/
def dupStore : Store := { bookmarks := StorageCell.arr [], recent := StorageCell.arr [docU, docU] }

/-- storeA holds docA under both keys. -/
def storeA : Store := { bookmarks := StorageCell.arr [docA], recent := StorageCell.arr [docA] }

/-- searchStore holds docA in recent and docB in bookmarks. -/
def searchStore : Store := { bookmarks := StorageCell.arr [docB], recent := StorageCell.arr [docA] }

/-- wDoc builds a record whose uri is the decimal print of its index. -/
def wDoc (i : Nat) : DocumentInfo := { uri := Nat.repr i, name := Nat.repr i, type := "pdf" }

/-- wDocs is a list of 21 records with pairwise distinct uris. -/
def wDocs : List DocumentInfo := (List.range 21).map wDoc

/-- wPairs pairs each record of wDocs with timestamp zero. -/
def wPairs : List (DocumentInfo × Nat) := wDocs.map (fun d => (d, 0))

/-- Helper: reading a stored array returns it unchanged. -/
theorem readCell_arr (l : List DocumentInfo) : readCell (StorageCell.arr l) = l := rfl

/-- Helper: taking the capacity from a cons splits off the head. -/
theorem take_capacity_cons (a : DocumentInfo) (l : List DocumentInfo) :
    (a :: l).take MAX_RECENT_DOCUMENTS = a :: l.take 19 := rfl

/-- Helper: the recent list after the TypeScript insertion, in split form. -/
theorem DS_recent_add (st : Store) (r : DocumentInfo) :
    DocumentService.getRecentDocuments (DocumentService.addToRecentDocuments st r)
      = r :: ((DocumentService.getRecentDocuments st).filter
          (fun doc => doc.uri != r.uri)).take 19 := rfl

/-- Helper: the TypeScript insertion written as an explicit constructor. -/
theorem DS_add_eq_mk (st : Store) (r : DocumentInfo) :
    DocumentService.addToRecentDocuments st r
      = Store.mk st.bookmarks (StorageCell.arr
          ((r :: (readCell st.recent).filter (fun doc => doc.uri != r.uri)).take
            MAX_RECENT_DOCUMENTS)) := rfl

/-- Helper: a prefix of a list with no matching element has no matching
element either. -/
theorem countP_take_eq_zero (p : DocumentInfo → Bool) (l : List DocumentInfo) (n : Nat)
    (h : l.countP p = 0) : (l.take n).countP p = 0 := by
  rw [List.countP_eq_zero] at h ⊢
  exact fun a ha => h a ((List.take_sublist n l).subset ha)

/-- Helper: filtering a uri away leaves nothing counted for that uri. -/
theorem countP_filter_ne (l : List DocumentInfo) (u : String) :
    (l.filter (fun doc => doc.uri != u)).countP (fun doc => doc.uri == u) = 0 := by
  rw [List.countP_eq_zero]
  intro a ha
  have h2 := (List.mem_filter.mp ha).2
  simpa using h2

/-- Helper: after the TypeScript insertion exactly one stored entry carries
the inserted uri. -/
theorem DS_count_add (st : Store) (r : DocumentInfo) :
    (DocumentService.getRecentDocuments (DocumentService.addToRecentDocuments st r)).countP
      (fun doc => doc.uri == r.uri) = 1 := by
  rw [DS_recent_add, List.countP_cons]
  have h0 : (((DocumentService.getRecentDocuments st).filter
      (fun doc => doc.uri != r.uri)).take 19).countP (fun doc => doc.uri == r.uri) = 0 :=
    countP_take_eq_zero _ _ _ (countP_filter_ne _ _)
  simp [h0]

/-- Helper: after the TypeScript insertion the inserted record is the head. -/
theorem DS_head_add (st : Store) (r : DocumentInfo) :
    (DocumentService.getRecentDocuments
      (DocumentService.addToRecentDocuments st r)).head? = some r := by
  rw [DS_recent_add]; rfl

/-- Helper: filtering a second time by the same uri changes nothing. -/
theorem filter_take_filter_self (l : List DocumentInfo) (u : String) (n : Nat) :
    ((l.filter (fun doc => doc.uri != u)).take n).filter (fun doc => doc.uri != u)
      = (l.filter (fun doc => doc.uri != u)).take n := by
  rw [List.filter_eq_self]
  intro a ha
  exact (List.mem_filter.mp ((List.take_sublist _ _).subset ha)).2

/-- Helper: the TypeScript insertion is idempotent as a store transition. -/
theorem DS_add_idem (st : Store) (r : DocumentInfo) :
    DocumentService.addToRecentDocuments (DocumentService.addToRecentDocuments st r) r
      = DocumentService.addToRecentDocuments st r := by
  rw [DS_add_eq_mk (DocumentService.addToRecentDocuments st r) r]
  rw [DS_add_eq_mk st r]
  congr 1
  have hread : readCell (Store.mk st.bookmarks (StorageCell.arr
      ((r :: (readCell st.recent).filter (fun doc => doc.uri != r.uri)).take
        MAX_RECENT_DOCUMENTS))).recent
      = r :: ((readCell st.recent).filter (fun doc => doc.uri != r.uri)).take 19 := rfl
  rw [hread, List.filter_cons]
  simp only [bne_self_eq_false, if_neg]
  rw [filter_take_filter_self]
  simp only [Bool.false_eq_true, if_false]
  rw [take_capacity_cons, take_capacity_cons, List.take_take]
  norm_num

/-- Helper: findIndex yields -1 exactly when no element matches. -/
theorem findIdx?_eq_none_iff (p : DocumentInfo → Bool) :
    ∀ (l : List DocumentInfo) (i : Nat),
      List.findIdx? p l i = none ↔ ∀ x ∈ l, p x = false
  | [], i => by simp
  | a :: l, i => by
    by_cases h : p a = true
    · simp [List.findIdx?_cons, h]
    · simp only [Bool.not_eq_true] at h
      simp [List.findIdx?_cons, h, findIdx?_eq_none_iff p l (i + 1)]

/-- Helper: removing the first match from a list with at most one match
leaves a list with no match. -/
theorem countP_eraseP_self (p : DocumentInfo → Bool) :
    ∀ l : List DocumentInfo, l.countP p ≤ 1 → (l.eraseP p).countP p = 0
  | [], _ => rfl
  | a :: l, h => by
    by_cases ha : p a = true
    · rw [List.eraseP_cons_of_pos ha]
      rw [List.countP_cons, ha] at h
      simp only [if_true] at h
      omega
    · rw [List.eraseP_cons_of_neg (by simp [ha])]
      rw [List.countP_cons] at h ⊢
      simp only [ha] at *
      have := countP_eraseP_self p l (by omega)
      simp [this]

/-- Helper: a list with no match is unchanged by eraseP. -/
theorem eraseP_no_match (p : DocumentInfo → Bool) :
    ∀ l : List DocumentInfo, (∀ a ∈ l, p a = false) → l.eraseP p = l
  | [], _ => rfl
  | a :: l, h => by
    rw [List.eraseP_cons_of_neg (by simp [h a (by simp)])]
    rw [eraseP_no_match p l (fun b hb => h b (by simp [hb]))]

/-- Helper: the conditional slice of the JavaScript insertion always equals
an unconditional take of the capacity. -/
theorem limit_take (w : List DocumentInfo) :
    (if MAX_RECENT_DOCUMENTS < w.length then w.take MAX_RECENT_DOCUMENTS else w)
      = w.take MAX_RECENT_DOCUMENTS := by
  by_cases h : MAX_RECENT_DOCUMENTS < w.length
  · simp [h]
  · simp [h, List.take_of_length_le (Nat.le_of_not_lt h)]

/-- Helper: the JavaScript insertion written as an explicit constructor,
available whenever the stored recent value parses. -/
theorem DSC_add_eq (st : Store) (r : DocumentInfo) (now : Nat)
    (hc : st.recent ≠ StorageCell.corrupt) :
    (DocumentServiceClass.addToRecentDocuments true st r now).2
      = Store.mk st.bookmarks (StorageCell.arr
          (({ r with accessedAt := some now } ::
            (readCell st.recent).eraseP (fun item => item.uri == r.uri)).take
              MAX_RECENT_DOCUMENTS)) := by
  cases st with
  | mk bc rc =>
    cases rc with
    | corrupt => exact absurd rfl hc
    | absent =>
      simp only [DocumentServiceClass.addToRecentDocuments, readCell]
      rw [limit_take]
      simp
    | arr l =>
      simp only [DocumentServiceClass.addToRecentDocuments, readCell]
      rw [limit_take]
      simp

/-- Helper: the recent list after the JavaScript insertion. -/
theorem DSC_recent_add (st : Store) (r : DocumentInfo) (now : Nat)
    (hc : st.recent ≠ StorageCell.corrupt) :
    DocumentServiceClass.getRecentDocuments
        ((DocumentServiceClass.addToRecentDocuments true st r now).2)
      = ({ r with accessedAt := some now } ::
          (DocumentServiceClass.getRecentDocuments st).eraseP
            (fun item => item.uri == r.uri)).take MAX_RECENT_DOCUMENTS := by
  rw [DocumentServiceClass.getRecentDocuments, DSC_add_eq st r now hc]
  rfl

/-- Helper: the recent cell stays parseable across the JavaScript insertion. -/
theorem DSC_add_not_corrupt (st : Store) (r : DocumentInfo) (now : Nat)
    (hc : st.recent ≠ StorageCell.corrupt) :
    (DocumentServiceClass.addToRecentDocuments true st r now).2.recent
      ≠ StorageCell.corrupt := by
  rw [DSC_add_eq st r now hc]
  intro h
  exact StorageCell.noConfusion h

/-- Helper: after the JavaScript insertion the stamped record is the head. -/
theorem DSC_head_add (st : Store) (r : DocumentInfo) (now : Nat)
    (hc : st.recent ≠ StorageCell.corrupt) :
    (DocumentServiceClass.getRecentDocuments
        ((DocumentServiceClass.addToRecentDocuments true st r now).2)).head?
      = some { r with accessedAt := some now } := by
  rw [DSC_recent_add st r now hc, take_capacity_cons, List.head?_cons]

/-- Helper: after the JavaScript insertion from a state holding at most one
entry with the uri, exactly one stored entry carries the inserted uri. -/
theorem DSC_count_add (st : Store) (r : DocumentInfo) (now : Nat)
    (hc : st.recent ≠ StorageCell.corrupt)
    (h1 : (DocumentServiceClass.getRecentDocuments st).countP
        (fun doc => doc.uri == r.uri) ≤ 1) :
    (DocumentServiceClass.getRecentDocuments
        ((DocumentServiceClass.addToRecentDocuments true st r now).2)).countP
      (fun doc => doc.uri == r.uri) = 1 := by
  rw [DSC_recent_add st r now hc, take_capacity_cons, List.countP_cons]
  have h0 : ((DocumentServiceClass.getRecentDocuments st).eraseP
      (fun item => item.uri == r.uri)).countP (fun doc => doc.uri == r.uri) = 0 :=
    countP_eraseP_self _ _ h1
  have h0t := countP_take_eq_zero _ _ 19 h0
  simp [h0t]

/-- Helper: from a state holding exactly one entry with the uri, the
JavaScript insertion does not grow the recent list. -/
theorem DSC_len_add (st : Store) (r : DocumentInfo) (now : Nat)
    (hc : st.recent ≠ StorageCell.corrupt)
    (h1 : (DocumentServiceClass.getRecentDocuments st).countP
        (fun doc => doc.uri == r.uri) = 1) :
    (DocumentServiceClass.getRecentDocuments
        ((DocumentServiceClass.addToRecentDocuments true st r now).2)).length
      ≤ (DocumentServiceClass.getRecentDocuments st).length := by
  rw [DSC_recent_add st r now hc]
  have hpos1 : 0 < (DocumentServiceClass.getRecentDocuments st).countP
      (fun doc => doc.uri == r.uri) := by rw [h1]; exact Nat.one_pos
  obtain ⟨a, ha, hpa⟩ := List.countP_pos_iff.mp hpos1
  have hlen := @List.length_eraseP_of_mem _ (DocumentServiceClass.getRecentDocuments st) a
    (fun item => item.uri == r.uri) ha hpa
  have hpos : 0 < (DocumentServiceClass.getRecentDocuments st).length :=
    List.length_pos.mpr (List.ne_nil_of_mem ha)
  rw [List.length_take, List.length_cons, hlen]
  have := Nat.min_le_right MAX_RECENT_DOCUMENTS
    ((DocumentServiceClass.getRecentDocuments st).eraseP
      (fun item => item.uri == r.uri)).length.succ
  omega

/-- Helper: inserting a record whose uri is absent from the recent list just
prepends it and truncates, for the TypeScript service. -/
theorem DS_add_fresh (st : Store) (r : DocumentInfo)
    (h : ∀ x ∈ DocumentService.getRecentDocuments st, (x.uri == r.uri) = false) :
    DocumentService.getRecentDocuments (DocumentService.addToRecentDocuments st r)
      = (r :: DocumentService.getRecentDocuments st).take MAX_RECENT_DOCUMENTS := by
  rw [DS_recent_add]
  have hself : (DocumentService.getRecentDocuments st).filter (fun doc => doc.uri != r.uri)
      = DocumentService.getRecentDocuments st := by
    rw [List.filter_eq_self]
    intro a ha
    have hfa := h a ha
    simp only [bne_iff_ne, ne_eq]
    intro hEq
    rw [hEq] at hfa
    simp at hfa
  rw [hself, take_capacity_cons]

/-- Helper: inserting a record whose uri is absent from the recent list just
prepends its stamped copy and truncates, for the JavaScript service. -/
theorem DSC_add_fresh (st : Store) (r : DocumentInfo) (now : Nat)
    (hc : st.recent ≠ StorageCell.corrupt)
    (h : ∀ x ∈ DocumentServiceClass.getRecentDocuments st, (x.uri == r.uri) = false) :
    DocumentServiceClass.getRecentDocuments
        ((DocumentServiceClass.addToRecentDocuments true st r now).2)
      = ({ r with accessedAt := some now } ::
          DocumentServiceClass.getRecentDocuments st).take MAX_RECENT_DOCUMENTS := by
  rw [DSC_recent_add st r now hc, eraseP_no_match _ _ h]

/-- Helper: folding the TypeScript insertion over records with pairwise
distinct uris keeps the reversed insertion order, truncated at capacity. -/
theorem insertAll_general :
    ∀ (rs p : List DocumentInfo) (st : Store),
      DocumentService.getRecentDocuments st = p.reverse.take MAX_RECENT_DOCUMENTS →
      (p ++ rs).Pairwise (fun a b => a.uri ≠ b.uri) →
      DocumentService.getRecentDocuments (insertAll rs st)
        = (p ++ rs).reverse.take MAX_RECENT_DOCUMENTS
  | [], p, st, h0, _ => by simpa using h0
  | r :: rs, p, st, h0, hp => by
    have hfresh : ∀ x ∈ DocumentService.getRecentDocuments st, (x.uri == r.uri) = false := by
      intro x hx
      rw [h0] at hx
      have hxp : x ∈ p := (List.mem_reverse).mp ((List.take_sublist _ _).subset hx)
      have hne := (List.pairwise_append.mp hp).2.2 x hxp r (by simp)
      simp [hne]
    have hstep : DocumentService.getRecentDocuments (DocumentService.addToRecentDocuments st r)
        = (p ++ [r]).reverse.take MAX_RECENT_DOCUMENTS := by
      rw [DS_add_fresh st r hfresh, h0]
      rw [List.reverse_append, List.reverse_singleton, List.singleton_append]
      rw [take_capacity_cons, take_capacity_cons, List.take_take]
      simp [MAX_RECENT_DOCUMENTS]
    have hp2 : ((p ++ [r]) ++ rs).Pairwise (fun a b => a.uri ≠ b.uri) := by
      rw [List.append_assoc, List.singleton_append]
      exact hp
    have hind := insertAll_general rs (p ++ [r])
      (DocumentService.addToRecentDocuments st r) hstep hp2
    rw [List.append_assoc, List.singleton_append] at hind
    exact hind

/-- Helper: stamping distributes over appending a single pair. -/
theorem stampAll_append_single (p : List (DocumentInfo × Nat)) (q : DocumentInfo × Nat) :
    stampAll (p ++ [q]) = stampAll p ++ [{ q.1 with accessedAt := some q.2 }] := by
  simp [stampAll]

/-- Helper: folding the JavaScript insertion over record and timestamp pairs
with pairwise distinct uris keeps the reversed stamped insertion order,
truncated at capacity, and keeps the cell parseable. -/
theorem insertAllClass_general :
    ∀ (prs p : List (DocumentInfo × Nat)) (st : Store),
      st.recent ≠ StorageCell.corrupt →
      DocumentServiceClass.getRecentDocuments st
        = (stampAll p).reverse.take MAX_RECENT_DOCUMENTS →
      (p ++ prs).Pairwise (fun a b => a.1.uri ≠ b.1.uri) →
      (insertAllClass prs st).recent ≠ StorageCell.corrupt ∧
      DocumentServiceClass.getRecentDocuments (insertAllClass prs st)
        = (stampAll (p ++ prs)).reverse.take MAX_RECENT_DOCUMENTS
  | [], p, st, hc, h0, _ => ⟨hc, by simpa using h0⟩
  | q :: prs, p, st, hc, h0, hp => by
    have hfresh : ∀ x ∈ DocumentServiceClass.getRecentDocuments st,
        (x.uri == q.1.uri) = false := by
      intro x hx
      rw [h0] at hx
      have hxs : x ∈ stampAll p := (List.mem_reverse).mp ((List.take_sublist _ _).subset hx)
      obtain ⟨pr, hpr, hx2⟩ := List.mem_map.mp hxs
      have hne := (List.pairwise_append.mp hp).2.2 pr hpr q (by simp)
      have hxu : x.uri = pr.1.uri := by rw [← hx2]
      simp [hxu, hne]
    have hstep : DocumentServiceClass.getRecentDocuments
        ((DocumentServiceClass.addToRecentDocuments true st q.1 q.2).2)
        = (stampAll (p ++ [q])).reverse.take MAX_RECENT_DOCUMENTS := by
      rw [DSC_add_fresh st q.1 q.2 hc hfresh, h0]
      rw [stampAll_append_single, List.reverse_append, List.reverse_singleton,
        List.singleton_append]
      rw [take_capacity_cons, take_capacity_cons, List.take_take]
      simp [MAX_RECENT_DOCUMENTS]
    have hnc := DSC_add_not_corrupt st q.1 q.2 hc
    have hp2 : ((p ++ [q]) ++ prs).Pairwise (fun a b => a.1.uri ≠ b.1.uri) := by
      rw [List.append_assoc, List.singleton_append]
      exact hp
    have hind := insertAllClass_general prs (p ++ [q])
      ((DocumentServiceClass.addToRecentDocuments true st q.1 q.2).2) hnc hstep hp2
    rw [List.append_assoc, List.singleton_append] at hind
    exact hind

/-- Helper: string inequality tests are symmetric. -/
theorem bne_comm_str (a b : String) : (a != b) = (b != a) := by
  by_cases h : a = b
  · subst h; rfl
  · have h1 : (a == b) = false := beq_eq_false_iff_ne.mpr h
    have h2 : (b == a) = false := beq_eq_false_iff_ne.mpr (Ne.symm h)
    simp [bne, h1, h2]

/-- Helper: unfolding the findIndex scan one element at a time. -/
theorem firstIdxOfUri_cons (d : DocumentInfo) (l : List DocumentInfo) (u : String) :
    DocumentService.firstIdxOfUri (d :: l) u
      = bif d.uri == u then 0 else DocumentService.firstIdxOfUri l u + 1 := by
  simp [DocumentService.firstIdxOfUri, List.findIdx_cons]

/-- Helper: when some element of the front segment carries the uri, findIndex
lands inside the front segment. -/
theorem firstIdxOfUri_append_lt (u : String) :
    ∀ (pre rest : List DocumentInfo),
      pre.any (fun q => q.uri == u) = true →
      DocumentService.firstIdxOfUri (pre ++ rest) u < pre.length
  | [], _, h => by simp at h
  | q :: pre, rest, h => by
    rw [List.cons_append, firstIdxOfUri_cons]
    cases hq : (q.uri == u) with
    | true => simp [hq]
    | false =>
      simp only [List.any_cons, hq, Bool.false_or] at h
      have ih := firstIdxOfUri_append_lt u pre rest h
      simp only [cond_false, List.length_cons]
      omega

/-- Helper: when no element of the front segment carries the uri, findIndex
lands exactly on the element that follows the front segment. -/
theorem firstIdxOfUri_append_eq (u : String) (x : DocumentInfo) (hx : (x.uri == u) = true) :
    ∀ (pre rest : List DocumentInfo),
      (∀ q ∈ pre, (q.uri == u) = false) →
      DocumentService.firstIdxOfUri (pre ++ x :: rest) u = pre.length
  | [], rest, _ => by simp [firstIdxOfUri_cons, hx]
  | q :: pre, rest, h => by
    rw [List.cons_append, firstIdxOfUri_cons]
    have hq : (q.uri == u) = false := h q (by simp)
    have ih := firstIdxOfUri_append_eq u x hx pre rest (fun a ha => h a (by simp [ha]))
    simp [hq, ih]

/-- Helper: the index-based filter of searchDocuments keeps exactly the first
occurrence of each uri. The walked suffix sits behind an arbitrary processed
front segment, whose uris have already claimed their first index. -/
theorem uniqueDocsAux_eq_dedup :
    ∀ (l pre : List DocumentInfo),
      DocumentService.uniqueDocsAux (pre ++ l) pre.length l
        = dedupByUri (l.filter (fun e => pre.all (fun q => q.uri != e.uri)))
  | [], pre => by simp [DocumentService.uniqueDocsAux, dedupByUri]
  | x :: xs, pre => by
    have hA : pre ++ x :: xs = (pre ++ [x]) ++ xs := by
      rw [List.append_assoc, List.singleton_append]
    have hn : pre.length + 1 = (pre ++ [x]).length := by simp
    cases hmem : pre.any (fun q => q.uri == x.uri) with
    | true =>
      have hlt := firstIdxOfUri_append_lt x.uri pre (x :: xs) hmem
      have hstep : DocumentService.uniqueDocsAux (pre ++ x :: xs) pre.length (x :: xs)
          = DocumentService.uniqueDocsAux (pre ++ x :: xs) (pre.length + 1) xs := by
        simp only [DocumentService.uniqueDocsAux]
        rw [if_neg (by simp; omega)]
      rw [hstep, hA, hn, uniqueDocsAux_eq_dedup xs (pre ++ [x])]
      have hxno : (pre.all (fun q => q.uri != x.uri)) = false := by
        obtain ⟨q0, hq0, hq0u⟩ := List.any_eq_true.mp hmem
        rw [List.all_eq_false]
        exact ⟨q0, hq0, by simp [bne, hq0u]⟩
      rw [List.filter_cons, if_neg (by simp [hxno])]
      congr 1
      apply List.filter_congr
      intro e _
      rw [List.all_append]
      cases hall : pre.all (fun q => q.uri != e.uri) with
      | false => simp
      | true =>
        obtain ⟨q0, hq0, hq0u⟩ := List.any_eq_true.mp hmem
        have h1 := List.all_eq_true.mp hall q0 hq0
        have h2 : (x.uri != e.uri) = true := by
          rw [← beq_iff_eq.mp hq0u]
          exact h1
        simp [h2]
    | false =>
      have hfresh : ∀ q ∈ pre, (q.uri == x.uri) = false := by
        intro q hq
        have := List.any_eq_false.mp hmem q hq
        simpa using this
      have hidx := firstIdxOfUri_append_eq x.uri x (by simp) pre xs hfresh
      have hstep : DocumentService.uniqueDocsAux (pre ++ x :: xs) pre.length (x :: xs)
          = x :: DocumentService.uniqueDocsAux (pre ++ x :: xs) (pre.length + 1) xs := by
        simp only [DocumentService.uniqueDocsAux]
        rw [if_pos (by simp [hidx])]
      rw [hstep, hA, hn, uniqueDocsAux_eq_dedup xs (pre ++ [x])]
      have hxyes : (pre.all (fun q => q.uri != x.uri)) = true := by
        rw [List.all_eq_true]
        intro q hq
        simp [bne, hfresh q hq]
      rw [List.filter_cons, if_pos (by simp [hxyes])]
      simp only [dedupByUri]
      congr 1
      rw [List.filter_filter]
      congr 1
      apply List.filter_congr
      intro e _
      rw [List.all_append, List.all_cons, List.all_nil]
      rw [bne_comm_str x.uri e.uri]
      rw [Bool.and_comm]
      simp

/-- Helper: searchDocuments equals the specification form, a first occurrence
dedup of recent followed by bookmarks, then the match filter. -/
theorem searchDocuments_eq_spec (st : Store) (q : String) :
    DocumentService.searchDocuments st q
      = (dedupByUri (DocumentService.getRecentDocuments st
          ++ DocumentService.getBookmarks st)).filter (matchesQuery q) := by
  have h := uniqueDocsAux_eq_dedup
    (DocumentService.getRecentDocuments st ++ DocumentService.getBookmarks st) []
  simp only [List.nil_append, List.length_nil, List.all_nil, List.filter_true] at h
  simp only [DocumentService.searchDocuments]
  rw [h]

/-- Helper: every character list includes the empty sequence. -/
theorem seqIncludes_nil_sub : ∀ hay : List Char, seqIncludes hay [] = true
  | [] => rfl
  | _ :: _ => rfl

/-- Helper: every record matches the empty query. -/
theorem matchesQuery_empty (doc : DocumentInfo) : matchesQuery "" doc = true := by
  rw [matchesQuery]
  rw [show lowerStr "" = [] from rfl]
  rw [seqIncludes_nil_sub, seqIncludes_nil_sub]
  rfl

/-- Helper: one or more repeats of the TypeScript insertion collapse to a
single insertion, since the insertion is idempotent. -/
theorem iterateAddRecent_collapse (r : DocumentInfo) (st : Store) :
    ∀ n, 1 ≤ n → iterateAddRecent r n st = DocumentService.addToRecentDocuments st r
  | 1, _ => rfl
  | n + 2, _ => by
    have ih := iterateAddRecent_collapse r st (n + 1) (by omega)
    show DocumentService.addToRecentDocuments (iterateAddRecent r (n + 1) st) r = _
    rw [ih, DS_add_idem]

/-- Helper: iterated JavaScript insertions, from a state whose recent value
parses and holds at most one entry with the uri, keep the cell parseable,
keep exactly one entry with the uri, and keep a stamped copy at the head. -/
theorem iterClass_facts (r : DocumentInfo) (times : Nat → Nat) (st : Store)
    (hc : st.recent ≠ StorageCell.corrupt)
    (h1 : (DocumentServiceClass.getRecentDocuments st).countP
        (fun doc => doc.uri == r.uri) ≤ 1) :
    ∀ n, 1 ≤ n →
      (iterateAddRecentClass r times n st).recent ≠ StorageCell.corrupt
      ∧ (DocumentServiceClass.getRecentDocuments (iterateAddRecentClass r times n st)).countP
          (fun doc => doc.uri == r.uri) = 1
      ∧ (DocumentServiceClass.getRecentDocuments
          (iterateAddRecentClass r times n st)).head?.map (fun doc => doc.uri)
        = some r.uri
  | 1, _ => by
    refine ⟨DSC_add_not_corrupt st r (times 0) hc, DSC_count_add st r (times 0) hc h1, ?_⟩
    rw [show iterateAddRecentClass r times 1 st
        = (DocumentServiceClass.addToRecentDocuments true st r (times 0)).2 from rfl]
    rw [DSC_head_add st r (times 0) hc]
    rfl
  | n + 2, _ => by
    obtain ⟨ihc, ihcount, _⟩ := iterClass_facts r times st hc h1 (n + 1) (by omega)
    refine ⟨DSC_add_not_corrupt _ r (times (n + 1)) ihc,
      DSC_count_add _ r (times (n + 1)) ihc (by omega), ?_⟩
    rw [show iterateAddRecentClass r times (n + 2) st
        = (DocumentServiceClass.addToRecentDocuments true
            (iterateAddRecentClass r times (n + 1) st) r (times (n + 1))).2 from rfl]
    rw [DSC_head_add _ r (times (n + 1)) ihc]
    rfl

/-- C1 (amended): for the TypeScript addToRecentDocuments the stated property
holds from every starting list: any run of one or more insertions of the same
record equals a single insertion, which leaves exactly one entry with the uri
and places it at index zero, and a further repeat never changes the length.
For the JavaScript addToRecentDocuments, which removes only the first
matching entry, the property holds from every starting state whose recent
value parses and holds at most one entry with the uri: after one or more
insertions exactly one entry carries the uri, the head carries it, and a
further repeat never grows the list. -/
theorem c1_dedup_on_reinsert (st : Store) (r : DocumentInfo) (n : Nat) (times : Nat → Nat)
    (hn : 1 ≤ n) :
    iterateAddRecent r n st = DocumentService.addToRecentDocuments st r
    ∧ (DocumentService.getRecentDocuments (iterateAddRecent r n st)).countP
        (fun doc => doc.uri == r.uri) = 1
    ∧ (DocumentService.getRecentDocuments (iterateAddRecent r n st)).head?.map
        (fun doc => doc.uri) = some r.uri
    ∧ (DocumentService.getRecentDocuments (iterateAddRecent r (n + 1) st)).length
        = (DocumentService.getRecentDocuments (iterateAddRecent r n st)).length
    ∧ (st.recent ≠ StorageCell.corrupt →
        (DocumentServiceClass.getRecentDocuments st).countP
            (fun doc => doc.uri == r.uri) ≤ 1 →
        (DocumentServiceClass.getRecentDocuments (iterateAddRecentClass r times n st)).countP
            (fun doc => doc.uri == r.uri) = 1
        ∧ (DocumentServiceClass.getRecentDocuments
            (iterateAddRecentClass r times n st)).head?.map (fun doc => doc.uri)
          = some r.uri
        ∧ (DocumentServiceClass.getRecentDocuments
            (iterateAddRecentClass r times (n + 1) st)).length
          ≤ (DocumentServiceClass.getRecentDocuments
              (iterateAddRecentClass r times n st)).length) := by
  have hcol := iterateAddRecent_collapse r st n hn
  have hcol2 := iterateAddRecent_collapse r st (n + 1) (by omega)
  refine ⟨hcol, ?_, ?_, ?_, ?_⟩
  · rw [hcol]
    exact DS_count_add st r
  · rw [hcol, DS_head_add]
    rfl
  · rw [hcol2, hcol]
  · intro hc h1
    have hfacts := iterClass_facts r times st hc h1 n hn
    exact ⟨hfacts.2.1, hfacts.2.2,
      DSC_len_add (iterateAddRecentClass r times n st) r (times n) hfacts.1 hfacts.2.1⟩

/-- Witness for C1 at concrete records, stores and repeat count: the
TypeScript conclusion is instantiated at the duplicate holding store, where
it still yields exactly one entry with the uri, and the JavaScript
conclusion is instantiated at the empty store, discharging its premises. -/
theorem c1_dedup_on_reinsert_witness :
    (1 ≤ 1)
    ∧ (DocumentService.getRecentDocuments (iterateAddRecent docU 1 dupStore)).countP
        (fun doc => doc.uri == docU.uri) = 1
    ∧ (emptyStore.recent ≠ StorageCell.corrupt
        ∧ (DocumentServiceClass.getRecentDocuments emptyStore).countP
            (fun doc => doc.uri == docA.uri) ≤ 1)
    ∧ (DocumentServiceClass.getRecentDocuments
        (iterateAddRecentClass docA (fun _ => 0) 1 emptyStore)).countP
        (fun doc => doc.uri == docA.uri) = 1 :=
  ⟨by omega,
    (c1_dedup_on_reinsert dupStore docU 1 (fun _ => 0) (by omega)).2.1,
    ⟨by decide, by decide⟩,
    ((c1_dedup_on_reinsert emptyStore docA 1 (fun _ => 0) (by omega)).2.2.2.2
      (by decide) (by decide)).1⟩

/-- Counterexample for C1 as stated: from a starting recent list holding two
entries with uri u, one JavaScript insertion of a record with uri u leaves
two entries with that uri, not exactly one. -/
theorem c1_dedup_on_reinsert_cex :
    (DocumentServiceClass.getRecentDocuments
        ((DocumentServiceClass.addToRecentDocuments true dupStore docU 0).2)).countP
      (fun doc => doc.uri == docU.uri) ≠ 1 := by decide

/-- C2: inserting MAX_RECENT_DOCUMENTS plus k records with pairwise distinct
uris, starting from an empty recent list, leaves exactly
MAX_RECENT_DOCUMENTS entries, namely the most recently inserted ones in most
recent first order; the TypeScript service stores the records unchanged and
the JavaScript service stores their accessedAt stamped copies, which carry
the same uris in the same order. -/
theorem c2_capacity_eviction (rs : List DocumentInfo) (prs : List (DocumentInfo × Nat))
    (st : Store) (k : Nat)
    (h0 : DocumentService.getRecentDocuments st = [])
    (hc : st.recent ≠ StorageCell.corrupt)
    (hp : rs.Pairwise (fun a b => a.uri ≠ b.uri))
    (hlen : rs.length = MAX_RECENT_DOCUMENTS + k)
    (hk : 1 ≤ k)
    (hprs : prs.map Prod.fst = rs) :
    DocumentService.getRecentDocuments (insertAll rs st)
        = rs.reverse.take MAX_RECENT_DOCUMENTS
    ∧ (DocumentService.getRecentDocuments (insertAll rs st)).length = MAX_RECENT_DOCUMENTS
    ∧ DocumentServiceClass.getRecentDocuments (insertAllClass prs st)
        = (stampAll prs).reverse.take MAX_RECENT_DOCUMENTS
    ∧ (DocumentServiceClass.getRecentDocuments (insertAllClass prs st)).length
        = MAX_RECENT_DOCUMENTS
    ∧ (stampAll prs).map (fun doc => doc.uri) = rs.map (fun doc => doc.uri) := by
  have hTS := insertAll_general rs [] st (by simpa using h0) (by simpa using hp)
  simp only [List.nil_append] at hTS
  have hpc : prs.Pairwise (fun a b => a.1.uri ≠ b.1.uri) := by
    rw [← hprs] at hp
    exact (@List.pairwise_map _ _ Prod.fst (fun a b => a.uri ≠ b.uri) prs).mp hp
  have h0c : DocumentServiceClass.getRecentDocuments st
      = (stampAll ([] : List (DocumentInfo × Nat))).reverse.take MAX_RECENT_DOCUMENTS := by
    rw [show DocumentServiceClass.getRecentDocuments st
        = DocumentService.getRecentDocuments st from rfl, h0]
    rfl
  have hJS := insertAllClass_general prs [] st hc h0c (by simpa using hpc)
  simp only [List.nil_append] at hJS
  have hlen2 : prs.length = rs.length := by
    rw [← hprs, List.length_map]
  refine ⟨hTS, ?_, hJS.2, ?_, ?_⟩
  · rw [hTS, List.length_take, List.length_reverse, hlen]
    rw [Nat.min_eq_left (by omega)]
  · rw [hJS.2, List.length_take, List.length_reverse]
    rw [show (stampAll prs).length = prs.length from List.length_map _ _]
    rw [hlen2, hlen, Nat.min_eq_left (by omega)]
  · rw [← hprs, stampAll, List.map_map, List.map_map]
    rfl

/-- Witness for C2 at a concrete list of 21 records with distinct uris. -/
theorem c2_capacity_eviction_witness :
    (DocumentService.getRecentDocuments emptyStore = []
      ∧ wDocs.Pairwise (fun a b => a.uri ≠ b.uri)
      ∧ wDocs.length = MAX_RECENT_DOCUMENTS + 1
      ∧ wPairs.map Prod.fst = wDocs)
    ∧ (DocumentService.getRecentDocuments (insertAll wDocs emptyStore)).length
        = MAX_RECENT_DOCUMENTS :=
  ⟨⟨by decide, by decide, by decide, by decide⟩,
    (c2_capacity_eviction wDocs wPairs emptyStore 1 (by decide) (by decide) (by decide)
      (by decide) (by omega) (by decide)).2.1⟩

/-- C3 (amended): the JavaScript addToRecentDocuments stores, at the head of
the recent list, the record with accessedAt overwritten by the clock value at
insertion time; the TypeScript addToRecentDocuments stores the record at the
head exactly as the caller supplied it, with no accessedAt stamping. -/
theorem c3_accessed_at_stamped (st : Store) (r : DocumentInfo) (now : Nat)
    (hc : st.recent ≠ StorageCell.corrupt) :
    (DocumentServiceClass.getRecentDocuments
        ((DocumentServiceClass.addToRecentDocuments true st r now).2)).head?
      = some { r with accessedAt := some now }
    ∧ (DocumentService.getRecentDocuments (DocumentService.addToRecentDocuments st r)).head?
      = some r :=
  ⟨DSC_head_add st r now hc, DS_head_add st r⟩

/-- Witness for C3 at a concrete record and clock value. -/
theorem c3_accessed_at_stamped_witness :
    emptyStore.recent ≠ StorageCell.corrupt
    ∧ (DocumentServiceClass.getRecentDocuments
        ((DocumentServiceClass.addToRecentDocuments true emptyStore docA 5).2)).head?
      = some { docA with accessedAt := some 5 } :=
  ⟨by decide, (c3_accessed_at_stamped emptyStore docA 5 (by decide)).1⟩

/-- Counterexample for C3 as stated: the TypeScript service stores the
caller record unchanged, so the head entry carries no accessedAt value at
all rather than one set by the store. -/
theorem c3_accessed_at_stamped_cex :
    DocumentService.getRecentDocuments (DocumentService.addToRecentDocuments emptyStore docA)
      = [docA]
    ∧ docA.accessedAt = none := ⟨by decide, rfl⟩

/-- C4 (amended): searchDocuments applied to the empty query returns the full
deduplicated union of recent followed by bookmarks, because every string
includes the empty substring; whitespace only queries are not special cased
and match as ordinary substrings. -/
theorem c4_empty_query_returns_union (st : Store) :
    DocumentService.searchDocuments st ""
      = dedupByUri (DocumentService.getRecentDocuments st
          ++ DocumentService.getBookmarks st) := by
  rw [searchDocuments_eq_spec]
  rw [List.filter_eq_self.mpr (fun a _ => matchesQuery_empty a)]

/-- Counterexample for C4 as stated: with one recent record stored, the
empty query returns a nonempty list rather than the empty list. -/
theorem c4_empty_query_cex : DocumentService.searchDocuments searchStore "" ≠ [] := by
  decide

/-- Helper: some index is found exactly when some element matches. -/
theorem exists_of_findIdx?_some (p : DocumentInfo → Bool) (l : List DocumentInfo) (i : Nat)
    (h : List.findIdx? p l = some i) : ∃ x ∈ l, p x = true := by
  by_contra hno
  push_neg at hno
  have hnone : List.findIdx? p l = none :=
    (findIdx?_eq_none_iff p l 0).mpr (fun x hx => by simpa using hno x hx)
  rw [hnone] at h
  exact Option.noConfusion h

/-- Helper: the TypeScript addBookmark on a fresh uri prepends the record. -/
theorem DS_addBookmark_new (st : Store) (r : DocumentInfo)
    (hr : (DocumentService.getBookmarks st).findIdx? (fun doc => doc.uri == r.uri) = none) :
    DocumentService.addBookmark st r
      = { st with bookmarks := StorageCell.arr (r :: DocumentService.getBookmarks st) } := by
  simp only [DocumentService.addBookmark]
  rw [hr]

/-- Helper: the TypeScript addBookmark on a present uri writes nothing. -/
theorem DS_addBookmark_existing (st : Store) (r : DocumentInfo)
    (hr : ∃ b ∈ DocumentService.getBookmarks st, b.uri = r.uri) :
    DocumentService.addBookmark st r = st := by
  obtain ⟨b, hb, hbu⟩ := hr
  cases hidx : (DocumentService.getBookmarks st).findIdx? (fun doc => doc.uri == r.uri) with
  | none =>
    exfalso
    have hfalse := (findIdx?_eq_none_iff _ _ 0).mp hidx b hb
    rw [hbu] at hfalse
    simp at hfalse
  | some i =>
    simp only [DocumentService.addBookmark]
    rw [hidx]

/-- Helper: a second TypeScript addBookmark with the same uri is inert. -/
theorem DS_addBookmark_twice (st : Store) (r r2 : DocumentInfo) (hu : r2.uri = r.uri) :
    DocumentService.addBookmark (DocumentService.addBookmark st r) r2
      = DocumentService.addBookmark st r := by
  cases hidx : (DocumentService.getBookmarks st).findIdx? (fun doc => doc.uri == r.uri) with
  | none =>
    have h1 := DS_addBookmark_new st r hidx
    apply DS_addBookmark_existing
    refine ⟨r, ?_, hu.symm⟩
    rw [h1]
    exact List.mem_cons_self r (DocumentService.getBookmarks st)
  | some i =>
    obtain ⟨b, hb, hbu⟩ := exists_of_findIdx?_some _ _ i hidx
    have h1 : DocumentService.addBookmark st r = st :=
      DS_addBookmark_existing st r ⟨b, hb, beq_iff_eq.mp hbu⟩
    rw [h1]
    exact DS_addBookmark_existing st r2 ⟨b, hb, by rw [hu]; exact beq_iff_eq.mp hbu⟩

/-- Helper: the JavaScript addBookmark on a fresh uri appends its entry. -/
theorem DSC_addBookmark_new (st : Store) (uri name type : String) (now : Nat)
    (hnc : st.bookmarks ≠ StorageCell.corrupt)
    (hcb : (readCell st.bookmarks).find? (fun item => item.uri == uri) = none) :
    DocumentServiceClass.addBookmark true st uri name type now
      = (true, { st with bookmarks := StorageCell.arr (readCell st.bookmarks
          ++ [DocumentServiceClass.mkBookmarkEntry uri name type now]) }) := by
  cases st with
  | mk bc rc =>
    cases bc with
    | corrupt => exact absurd rfl hnc
    | absent => rfl
    | arr l =>
      simp only [DocumentServiceClass.addBookmark, readCell]
      have hcb2 : List.find? (fun item => item.uri == uri) l = none := hcb
      rw [hcb2]
      simp

/-- Helper: the JavaScript addBookmark on a present uri writes nothing. -/
theorem DSC_addBookmark_existing (st : Store) (uri name type : String) (now : Nat)
    (hcb : ∃ b ∈ readCell st.bookmarks, b.uri = uri) :
    DocumentServiceClass.addBookmark true st uri name type now = (true, st) := by
  cases st with
  | mk bc rc =>
    cases bc with
    | corrupt =>
      obtain ⟨b, hb, _⟩ := hcb
      exact absurd hb (List.not_mem_nil b)
    | absent =>
      obtain ⟨b, hb, _⟩ := hcb
      exact absurd hb (List.not_mem_nil b)
    | arr l =>
      obtain ⟨b, hb, hbu⟩ := hcb
      have hfind : (l.find? (fun item => item.uri == uri)).isSome = true :=
        List.find?_isSome.mpr ⟨b, hb, by simp [hbu]⟩
      cases hfs : l.find? (fun item => item.uri == uri) with
      | none => rw [hfs] at hfind; exact Bool.noConfusion hfind
      | some b2 =>
        simp only [DocumentServiceClass.addBookmark]
        rw [show readCell (StorageCell.arr l) = l from rfl, hfs]

/-- Helper: a second JavaScript addBookmark with the same uri is inert. -/
theorem DSC_addBookmark_twice (st : Store) (uri name type name2 type2 : String) (t t2 : Nat) :
    (DocumentServiceClass.addBookmark true
        ((DocumentServiceClass.addBookmark true st uri name2 type2 t2).2) uri name type t).2
      = (DocumentServiceClass.addBookmark true st uri name2 type2 t2).2 := by
  cases st with
  | mk bc rc =>
    cases bc with
    | corrupt => rfl
    | absent =>
      have h1 := DSC_addBookmark_new (Store.mk StorageCell.absent rc) uri name2 type2 t2
        (by intro h; exact StorageCell.noConfusion h) rfl
      rw [h1]
      rw [DSC_addBookmark_existing _ uri name type t
        ⟨DocumentServiceClass.mkBookmarkEntry uri name2 type2 t2, by simp [readCell], rfl⟩]
    | arr l =>
      cases hfs : l.find? (fun item => item.uri == uri) with
      | some b =>
        have hmem := List.mem_of_find?_eq_some hfs
        have hpb := List.find?_some hfs
        have h1 := DSC_addBookmark_existing (Store.mk (StorageCell.arr l) rc) uri name2 type2 t2
          ⟨b, hmem, beq_iff_eq.mp hpb⟩
        rw [h1]
        rw [DSC_addBookmark_existing (Store.mk (StorageCell.arr l) rc) uri name type t
          ⟨b, hmem, beq_iff_eq.mp hpb⟩]
      | none =>
        have h1 := DSC_addBookmark_new (Store.mk (StorageCell.arr l) rc) uri name2 type2 t2
          (by intro h; exact StorageCell.noConfusion h) hfs
        rw [h1]
        rw [DSC_addBookmark_existing _ uri name type t
          ⟨DocumentServiceClass.mkBookmarkEntry uri name2 type2 t2, by simp [readCell], rfl⟩]

/-- C5 (amended): on a uri not yet bookmarked, the TypeScript addBookmark
prepends the record, which becomes index zero, while the JavaScript
addBookmark appends its entry to the end of the list, so there the newest
bookmark sits last, not first; neither service applies any capacity bound,
so the list always grows by exactly one entry. -/
theorem c5_bookmark_prepend (st : Store) (r : DocumentInfo) (uri name type : String)
    (now : Nat)
    (hr : (DocumentService.getBookmarks st).findIdx? (fun doc => doc.uri == r.uri) = none)
    (hnc : st.bookmarks ≠ StorageCell.corrupt)
    (hcb : (readCell st.bookmarks).find? (fun item => item.uri == uri) = none) :
    DocumentService.getBookmarks (DocumentService.addBookmark st r)
        = r :: DocumentService.getBookmarks st
    ∧ (DocumentService.getBookmarks (DocumentService.addBookmark st r)).length
        = (DocumentService.getBookmarks st).length + 1
    ∧ DocumentServiceClass.getBookmarks
        ((DocumentServiceClass.addBookmark true st uri name type now).2)
        = DocumentServiceClass.getBookmarks st
          ++ [DocumentServiceClass.mkBookmarkEntry uri name type now]
    ∧ (DocumentServiceClass.getBookmarks
        ((DocumentServiceClass.addBookmark true st uri name type now).2)).length
        = (DocumentServiceClass.getBookmarks st).length + 1 := by
  have h1 := DS_addBookmark_new st r hr
  have h2 := DSC_addBookmark_new st uri name type now hnc hcb
  refine ⟨?_, ?_, ?_, ?_⟩
  · rw [DocumentService.getBookmarks, h1]
    rfl
  · rw [DocumentService.getBookmarks, h1]
    rfl
  · rw [DocumentServiceClass.getBookmarks, h2]
    rfl
  · rw [DocumentServiceClass.getBookmarks, h2]
    simp [DocumentServiceClass.getBookmarks, readCell]

/-- Witness for C5 at a concrete store and records. -/
theorem c5_bookmark_prepend_witness :
    ((DocumentService.getBookmarks storeA).findIdx? (fun doc => doc.uri == docB.uri) = none
      ∧ storeA.bookmarks ≠ StorageCell.corrupt
      ∧ (readCell storeA.bookmarks).find? (fun item => item.uri == "u2") = none)
    ∧ DocumentService.getBookmarks (DocumentService.addBookmark storeA docB)
        = docB :: DocumentService.getBookmarks storeA :=
  ⟨⟨by decide, by decide, by decide⟩,
    (c5_bookmark_prepend storeA docB "u2" "doc2" "pdf" 7 (by decide) (by decide)
      (by decide)).1⟩

/-- Counterexample for C5 as stated: the JavaScript addBookmark appends, so
after adding a record with uri u2 to a bookmark list holding uri u1, index
zero still carries uri u1, not the new record. -/
theorem c5_bookmark_prepend_cex :
    (DocumentServiceClass.getBookmarks
        ((DocumentServiceClass.addBookmark true storeA "u2" "doc2" "pdf" 7).2)).head?.map
      (fun doc => doc.uri) ≠ some "u2" := by decide

/-- C6: on a uri already bookmarked, addBookmark of either service is a no
op: the persisted list, including the metadata of the existing entry, is
unchanged, and a repeated addBookmark with the same uri, whatever metadata
it carries, yields the same list as the first call alone. -/
theorem c6_bookmark_idempotence (st : Store) (r r2 : DocumentInfo)
    (uri name type name2 type2 : String) (t t2 : Nat)
    (hr : ∃ b ∈ DocumentService.getBookmarks st, b.uri = r.uri)
    (hu : r2.uri = r.uri)
    (hcb : ∃ b ∈ readCell st.bookmarks, b.uri = uri) :
    DocumentService.addBookmark st r = st
    ∧ DocumentService.addBookmark (DocumentService.addBookmark st r) r2
        = DocumentService.addBookmark st r
    ∧ DocumentServiceClass.addBookmark true st uri name type t = (true, st)
    ∧ (DocumentServiceClass.addBookmark true
        ((DocumentServiceClass.addBookmark true st uri name2 type2 t2).2) uri name type t).2
      = (DocumentServiceClass.addBookmark true st uri name2 type2 t2).2 :=
  ⟨DS_addBookmark_existing st r hr, DS_addBookmark_twice st r r2 hu,
    DSC_addBookmark_existing st uri name type t hcb,
    DSC_addBookmark_twice st uri name type name2 type2 t t2⟩

/-- Witness for C6 at a concrete store already holding the bookmark. -/
theorem c6_bookmark_idempotence_witness :
    ((∃ b ∈ DocumentService.getBookmarks storeA, b.uri = docA.uri)
      ∧ docA.uri = docA.uri
      ∧ (∃ b ∈ readCell storeA.bookmarks, b.uri = "u1"))
    ∧ DocumentService.addBookmark storeA docA = storeA :=
  ⟨⟨by decide, rfl, by decide⟩,
    (c6_bookmark_idempotence storeA docA docA "u1" "n" "t" "n2" "t2" 1 2 (by decide) rfl
      (by decide)).1⟩

/-- C7: for a nonempty query, searchDocuments returns exactly the records of
the union of recent followed by bookmarks, deduplicated by uri with the first
occurrence winning, that match the query case insensitively on name or type;
the dedup runs before the match filter, as in the source. -/
theorem c7_search_correctness (st : Store) (q : String) (_hq : q ≠ "") :
    DocumentService.searchDocuments st q
      = (dedupByUri (DocumentService.getRecentDocuments st
          ++ DocumentService.getBookmarks st)).filter (matchesQuery q) :=
  searchDocuments_eq_spec st q

/-- Witness for C7 at a concrete store and the query pdf. -/
theorem c7_search_correctness_witness :
    ("pdf" : String) ≠ ""
    ∧ DocumentService.searchDocuments searchStore "pdf"
      = (dedupByUri (DocumentService.getRecentDocuments searchStore
          ++ DocumentService.getBookmarks searchStore)).filter (matchesQuery "pdf") :=
  ⟨by decide, c7_search_correctness searchStore "pdf" (by decide)⟩

/-- C8: both read operations of both services fail open: an absent key and a
key that fails to parse both give the empty list, and a key holding a valid
array gives that array; the embedded reads are total functions, reflecting
that the source catches every error on the read path. -/
theorem c8_reads_fail_open (l : List DocumentInfo) (bc rc : StorageCell) :
    DocumentService.getBookmarks { bookmarks := StorageCell.absent, recent := rc } = []
    ∧ DocumentService.getBookmarks { bookmarks := StorageCell.corrupt, recent := rc } = []
    ∧ DocumentService.getBookmarks { bookmarks := StorageCell.arr l, recent := rc } = l
    ∧ DocumentService.getRecentDocuments { bookmarks := bc, recent := StorageCell.absent } = []
    ∧ DocumentService.getRecentDocuments { bookmarks := bc, recent := StorageCell.corrupt } = []
    ∧ DocumentService.getRecentDocuments { bookmarks := bc, recent := StorageCell.arr l } = l
    ∧ DocumentServiceClass.getBookmarks { bookmarks := StorageCell.absent, recent := rc } = []
    ∧ DocumentServiceClass.getBookmarks { bookmarks := StorageCell.corrupt, recent := rc } = []
    ∧ DocumentServiceClass.getBookmarks { bookmarks := StorageCell.arr l, recent := rc } = l
    ∧ DocumentServiceClass.getRecentDocuments
        { bookmarks := bc, recent := StorageCell.absent } = []
    ∧ DocumentServiceClass.getRecentDocuments
        { bookmarks := bc, recent := StorageCell.corrupt } = []
    ∧ DocumentServiceClass.getRecentDocuments
        { bookmarks := bc, recent := StorageCell.arr l } = l :=
  ⟨rfl, rfl, rfl, rfl, rfl, rfl, rfl, rfl, rfl, rfl, rfl, rfl⟩

/-- C9: when the underlying setItem call fails during a mutating operation,
every operation of both services reports the failure to its caller: the
TypeScript operations rethrow, so their result is the error case, and the
JavaScript operations return false; the only path that does not report a
write failure is the TypeScript addBookmark on an already present uri, which
never reaches the write at all. -/
theorem c9_writes_fail_loud (st : Store) (d : DocumentInfo) (uri name type : String)
    (t : Nat)
    (hb : (DocumentService.getBookmarks st).findIdx? (fun doc => doc.uri == d.uri) = none)
    (hcb : (readCell st.bookmarks).find? (fun item => item.uri == uri) = none) :
    DocumentService.addBookmarkW false st d = Except.error ()
    ∧ DocumentService.removeBookmarkW false st uri = Except.error ()
    ∧ DocumentService.addToRecentDocumentsW false st d = Except.error ()
    ∧ DocumentService.clearRecentDocumentsW false st = Except.error ()
    ∧ (DocumentServiceClass.addBookmark false st uri name type t).1 = false
    ∧ (DocumentServiceClass.removeBookmark false st uri).1 = false
    ∧ (DocumentServiceClass.addToRecentDocuments false st d t).1 = false
    ∧ (DocumentServiceClass.clearRecentDocuments false st).1 = false := by
  refine ⟨?_, rfl, rfl, rfl, ?_, ?_, ?_, rfl⟩
  · simp only [DocumentService.addBookmarkW]
    rw [hb]
    rfl
  · cases st with
    | mk bc rc =>
      cases bc with
      | corrupt => rfl
      | absent => rfl
      | arr l =>
        simp only [DocumentServiceClass.addBookmark, readCell]
        have hcb2 : List.find? (fun item => item.uri == uri) l = none := hcb
        rw [hcb2]
        rfl
  · cases st with
    | mk bc rc =>
      cases bc with
      | corrupt => rfl
      | absent => rfl
      | arr l => rfl
  · cases st with
    | mk bc rc =>
      cases rc with
      | corrupt => rfl
      | absent => rfl
      | arr l => rfl

/-- Witness for C9 at a concrete store and record. -/
theorem c9_writes_fail_loud_witness :
    ((DocumentService.getBookmarks storeA).findIdx? (fun doc => doc.uri == docB.uri) = none
      ∧ (readCell storeA.bookmarks).find? (fun item => item.uri == "u2") = none)
    ∧ DocumentService.addBookmarkW false storeA docB = Except.error () :=
  ⟨⟨by decide, by decide⟩,
    (c9_writes_fail_loud storeA docB "u2" "n" "t" 0 (by decide) (by decide)).1⟩

/-- C10 (amended): the TypeScript addToRecentDocuments rewrites the recent
list to the record prepended to the old list with every entry of that uri
removed, truncated at the capacity, and its tail is a sublist of the old
list, so surviving entries keep their relative order unmodified. The
JavaScript addToRecentDocuments instead prepends the accessedAt stamped copy
of the record to the old list with only the first entry of that uri removed,
truncated at the capacity, again with the tail a sublist of the old list. -/
theorem c10_recent_insert_shape (st : Store) (r : DocumentInfo) (now : Nat)
    (hc : st.recent ≠ StorageCell.corrupt) :
    DocumentService.getRecentDocuments (DocumentService.addToRecentDocuments st r)
      = (r :: (DocumentService.getRecentDocuments st).filter
          (fun doc => doc.uri != r.uri)).take MAX_RECENT_DOCUMENTS
    ∧ (DocumentService.getRecentDocuments
        (DocumentService.addToRecentDocuments st r)).tail.Sublist
        (DocumentService.getRecentDocuments st)
    ∧ DocumentServiceClass.getRecentDocuments
        ((DocumentServiceClass.addToRecentDocuments true st r now).2)
      = ({ r with accessedAt := some now }
          :: (DocumentServiceClass.getRecentDocuments st).eraseP
            (fun item => item.uri == r.uri)).take MAX_RECENT_DOCUMENTS
    ∧ (DocumentServiceClass.getRecentDocuments
        ((DocumentServiceClass.addToRecentDocuments true st r now).2)).tail.Sublist
        (DocumentServiceClass.getRecentDocuments st) := by
  refine ⟨rfl, ?_, DSC_recent_add st r now hc, ?_⟩
  · rw [DS_recent_add, List.tail_cons]
    exact (List.take_sublist _ _).trans (List.filter_sublist _)
  · rw [DSC_recent_add st r now hc, take_capacity_cons, List.tail_cons]
    exact (List.take_sublist _ _).trans (List.eraseP_sublist _)

/-- Witness for C10 at a concrete store and record. -/
theorem c10_recent_insert_shape_witness :
    storeA.recent ≠ StorageCell.corrupt
    ∧ DocumentService.getRecentDocuments (DocumentService.addToRecentDocuments storeA docB)
      = (docB :: (DocumentService.getRecentDocuments storeA).filter
          (fun doc => doc.uri != docB.uri)).take MAX_RECENT_DOCUMENTS :=
  ⟨by decide, (c10_recent_insert_shape storeA docB 9 (by decide)).1⟩

/-- Counterexample for C10 as stated: the JavaScript service does not store
the caller record itself at the head but its accessedAt stamped copy, and
from a list with two entries of the inserted uri it removes only the first
one, leaving two entries with that uri. -/
theorem c10_recent_insert_shape_cex :
    DocumentServiceClass.getRecentDocuments
        ((DocumentServiceClass.addToRecentDocuments true emptyStore docA 5).2) ≠ [docA]
    ∧ (DocumentServiceClass.getRecentDocuments
        ((DocumentServiceClass.addToRecentDocuments true dupStore docU 3).2)).countP
      (fun doc => doc.uri == docU.uri) = 2 := by
  refine ⟨by decide, by decide⟩

